import Mathlib

/-!
Verification of the uniswap-poller decision core against its specification.

Shallow embedding conventions.  JavaScript `number` values are modelled as
real numbers (`ℝ`), except tick coordinates and tick-grid quantities, which
the program keeps integral and which are modelled as `ℤ`.  JavaScript
`Math.floor(a / b)` on integral operands is `Int.fdiv`; the 32-bit
operations `x >> 8` and `x & 255` that the program applies to compressed
tick indices (whose magnitude is far below 2^31) are their exact integer
counterparts `Int.fdiv x 256` and `x % 256`.  Division by zero follows
Lean's `x / 0 = 0` convention.  `Date.now()` and `Math.random()` are
modelled as explicit parameters (`now`, a millisecond timestamp, and
`rand`, the PRNG draw).  Fallible or absent values (`undefined`) are
`Option`.
-/

namespace UniswapPoller

/-! ## PriceMath (utils.ts) -/

/-- `roundDownToSpacing` from utils.ts:
`let t = Math.floor(tick / spacing) * spacing; if (tick < 0 && tick % spacing !== 0) t -= spacing; return t;` -/
def roundDownToSpacing (tick spacing : ℤ) : ℤ :=
  let t := Int.fdiv tick spacing * spacing
  if tick < 0 ∧ tick % spacing ≠ 0 then t - spacing else t

/-- `wordOfTick` from utils.ts:
`let compressed = Math.floor(tick / tickSpacing); if (tick < 0 && tick % tickSpacing !== 0) compressed -= 1; return compressed >> 8;` -/
def wordOfTick (tick tickSpacing : ℤ) : ℤ :=
  let compressed := Int.fdiv tick tickSpacing
  let compressed := if tick < 0 ∧ tick % tickSpacing ≠ 0 then compressed - 1 else compressed
  Int.fdiv compressed 256

/-- `bitPosOfTick` from utils.ts:
`let compressed = Math.floor(tick / tickSpacing); if (tick < 0 && tick % tickSpacing !== 0) compressed -= 1; return compressed & 255;` -/
def bitPosOfTick (tick tickSpacing : ℤ) : ℤ :=
  let compressed := Int.fdiv tick tickSpacing
  let compressed := if tick < 0 ∧ tick % tickSpacing ≠ 0 then compressed - 1 else compressed
  compressed % 256

/-- `isBitSet` from utils.ts: `!bm.and(BigNumber.from(1).shl(bit)).isZero()`.
The 256-bit bitmap word is modelled as a natural number. -/
def isBitSet (bm : ℕ) (bit : ℕ) : Bool :=
  bm.testBit bit

/-! ## BoundaryScanner (poolService.ts, `findNearestInitializedTicks`) -/

/-- Inner loop of the rightward scan: `for (let b = start; b <= 255; b++) if (isBitSet(bm, b)) ...`
returns the first bit index in `start .. 255` that is set in `bm`. -/
def firstSetBitFrom (bm : ℕ) (start : ℤ) : Option ℕ :=
  ((List.range 256).filter fun (b : ℕ) => start ≤ (b : ℤ)).find? fun b => isBitSet bm b

/-- Inner loop of the leftward scan: `for (let b = start; b >= 0; b--) if (isBitSet(bm, b)) ...`
returns the highest bit index in `0 .. start` that is set in `bm`. -/
def lastSetBitUpTo (bm : ℕ) (start : ℤ) : Option ℕ :=
  ((List.range 256).reverse.filter fun (b : ℕ) => (b : ℤ) ≤ start).find? fun b => isBitSet bm b

/-- Rightward word walk of `findNearestInitializedTicks`; `fuel` is the number of
words left to visit (`searchWordsEachSide + 1` at the top call).  A word is scanned
only when its bitmap is nonzero (`if (!bm.isZero())`), the first word from bit
`start`, every later word from bit 0; a hit `(w, b)` yields `((w << 8) | b) * tickSpacing`,
which on the in-range word indices the program handles equals `(w * 256 + b) * tickSpacing`. -/
def scanRight (bitmaps : ℤ → ℕ) (tickSpacing : ℤ) : ℕ → ℤ → ℤ → Option ℤ
  | 0, _, _ => none
  | fuel + 1, w, start =>
    let bm := bitmaps w
    match (if bm ≠ 0 then firstSetBitFrom bm start else none) with
    | some b => some ((w * 256 + (b : ℤ)) * tickSpacing)
    | none => scanRight bitmaps tickSpacing fuel (w + 1) 0

/-- Leftward word walk of `findNearestInitializedTicks`: first word scanned
downward from bit `start`, every later word from bit 255. -/
def scanLeft (bitmaps : ℤ → ℕ) (tickSpacing : ℤ) : ℕ → ℤ → ℤ → Option ℤ
  | 0, _, _ => none
  | fuel + 1, w, start =>
    let bm := bitmaps w
    match (if bm ≠ 0 then lastSetBitUpTo bm start else none) with
    | some b => some ((w * 256 + (b : ℤ)) * tickSpacing)
    | none => scanLeft bitmaps tickSpacing fuel (w - 1) 255

/-- `findNearestInitializedTicks` from poolService.ts.  The `tickBitmap` RPC reads
are modelled by the accessor `bitmaps`; the function only consults word indices in
`activeWord - searchWordsEachSide .. activeWord + searchWordsEachSide`, exactly the
words the program prefetches (missing words default to zero words, as `?? BigNumber.from(0)`).
Returns `(leftTick, rightTick)`. -/
def findNearestInitializedTicks (bitmaps : ℤ → ℕ) (activeTick tickSpacing : ℤ)
    (searchWordsEachSide : ℕ) : Option ℤ × Option ℤ :=
  let activeWord := wordOfTick activeTick tickSpacing
  let activeBit := bitPosOfTick activeTick tickSpacing
  let rightTick := scanRight bitmaps tickSpacing (searchWordsEachSide + 1) activeWord (activeBit + 1)
  let leftTick := scanLeft bitmaps tickSpacing (searchWordsEachSide + 1) activeWord (activeBit - 1)
  (leftTick, rightTick)

/-! ## Data model (types.ts) -/

/-- `status: 'active' | 'closed'` of a position. -/
inductive Status where
  | active
  | closed
deriving DecidableEq, Repr

/-- `Position` from types.ts.  Tick coordinates are `ℤ`; monetary and price
fields are `ℝ`; the ISO-8601 timestamp strings are modelled by the millisecond
epoch values they denote. -/
structure Position where
  id : String
  lower : ℤ
  upper : ℤ
  enteredAt : ℝ
  entryTick : ℤ
  entryPrice : ℝ
  amountUsd : ℝ
  status : Status
  feesEarned : ℝ
  lastRebalanceAt : Option ℝ
  rebalanceCount : ℕ
  liquidity : ℝ
  token0Amount : ℝ
  token1Amount : ℝ
  currentValue : ℝ
  impermanentLoss : ℝ
  totalReturn : ℝ
  lastUpdateAt : ℝ

/-- `SimState` from types.ts: the position ledger plus aggregate counters and
the capital policy. -/
structure SimState where
  positions : List Position
  totalUsdInvested : ℝ
  maxPositions : ℕ
  maxUsdPerPosition : ℝ
  totalUsdLimit : ℝ
  totalFeesEarned : ℝ
  totalImpermanentLoss : ℝ
  totalReturn : ℝ
  winRate : ℝ
  averagePositionDuration : ℝ
  lastUpdateAt : ℝ
  simulationStartTime : ℝ
  totalTrades : ℕ
  successfulTrades : ℕ
  maxDrawdown : ℝ
  sharpeRatio : ℝ
  totalGasSpent : ℝ
  gasCostPerTransaction : ℝ

/-! ## Utility functions over ℝ (utils.ts) -/

/-- `LOG_1P0001 = Math.log(1.0001)`. -/
noncomputable def LOG_1P0001 : ℝ := Real.log 1.0001

/-- `tickToPrice(tick, dec0, dec1) = Math.pow(1.0001, tick) * Math.pow(10, dec0 - dec1)`. -/
noncomputable def tickToPrice (tick dec0 dec1 : ℤ) : ℝ :=
  (1.0001 : ℝ) ^ tick * (10 : ℝ) ^ (dec0 - dec1)

/-- `safeNumber(value, defaultValue = 0)`: a finite, truthy number passes
through, otherwise the default.  In the real-number model every value is
finite, so only the zero (falsy) case matters, and it also returns 0. -/
noncomputable def safeNumber (value : ℝ) : ℝ :=
  if value ≠ 0 then value else 0

/-- `calculateTimeHeld(enteredAt) = (Date.now() - new Date(enteredAt).getTime()) / (1000*60*60)`,
with the clock passed explicitly. -/
noncomputable def calculateTimeHeld (now enteredAt : ℝ) : ℝ :=
  (now - enteredAt) / (1000 * 60 * 60)

/-- `widthFromSigma` from the first utils.ts variant: width from a volatility
estimate, snapped up to a spacing multiple and clamped to
`[4 * tickSpacing, 20 * tickSpacing]`. -/
noncomputable def widthFromSigma (sigma T_hours z tickSpacing : ℝ) : ℝ :=
  let T_days := max 1e-9 (T_hours / 24)
  let halfWidth := z * sigma * Real.sqrt T_days / LOG_1P0001
  let W : ℝ := (⌈2 * halfWidth⌉ : ℤ)
  let W : ℝ := ((⌈W / tickSpacing⌉ : ℤ) : ℝ) * tickSpacing
  let minWidth := 4 * tickSpacing
  let maxWidth := 20 * tickSpacing
  max minWidth (min W maxWidth)

/-- `widthFromSigma` from the second utils.ts variant: same sizing formula but
clamped below by `6 * tickSpacing` only
(`return Math.max(W, 6 * tickSpacing)`). -/
noncomputable def widthFromSigma' (sigma T_hours z tickSpacing : ℝ) : ℝ :=
  let T_days := max 1e-9 (T_hours / 24)
  let halfWidth := z * sigma * Real.sqrt T_days / LOG_1P0001
  let W : ℝ := (⌈2 * halfWidth⌉ : ℤ)
  let W : ℝ := ((⌈W / tickSpacing⌉ : ℤ) : ℝ) * tickSpacing
  max W (6 * tickSpacing)

/-! ## Core calculations (calculations.ts) -/

/-- `calculateImpermanentLoss(entryPrice, currentPrice)` from calculations.ts:
`|2 * sqrt(r) / (1 + r) - 1| * 100` with `r = currentPrice / entryPrice`,
and 0 when either price is 0. -/
noncomputable def calculateImpermanentLoss (entryPrice currentPrice : ℝ) : ℝ :=
  if entryPrice = 0 ∨ currentPrice = 0 then 0
  else
    let priceRatio := currentPrice / entryPrice
    let sqrtRatio := Real.sqrt priceRatio
    let il := 2 * sqrtRatio / (1 + priceRatio) - 1
    |il| * 100

/-- `calculateCurrentPositionValue(position, currentPrice, currentTick, dec0, dec1)`
from calculations.ts: below range the value of the token1 holding, above range the
token0 holding, and in range `amountUsd * sqrt(currentPrice / entryPrice)` clamped
below by 10% of `amountUsd`.  (The source also computes the unused boundary prices
`lowerPrice` and `upperPrice`.) -/
noncomputable def calculateCurrentPositionValue (position : Position)
    (currentPrice : ℝ) (currentTick : ℤ) (dec0 dec1 : ℤ) : ℝ :=
  let _lowerPrice := tickToPrice position.lower dec0 dec1
  let _upperPrice := tickToPrice position.upper dec0 dec1
  if currentTick < position.lower then
    position.token1Amount * currentPrice
  else if currentTick > position.upper then
    position.token0Amount
  else
    let priceRatio := currentPrice / position.entryPrice
    let lpValue := position.amountUsd * Real.sqrt priceRatio
    max lpValue (position.amountUsd * 0.1)

/-- `calculateFeesEarned(position, currentTick, currentPrice, globalLiquidity, feeRate)`
from calculations.ts, with the `Date.now()` clock and the `Math.random()` draw
passed explicitly (`randomFactor = 0.7 + rand * 0.6`). -/
noncomputable def calculateFeesEarned (now rand : ℝ) (position : Position)
    (currentTick : ℤ) (currentPrice globalLiquidity feeRate : ℝ) : ℝ :=
  let timeHeld := calculateTimeHeld now position.enteredAt
  if timeHeld ≤ 0 ∨ position.entryPrice = 0 then position.feesEarned
  else
    let inRange := position.lower ≤ currentTick ∧ currentTick ≤ position.upper
    if ¬inRange then position.feesEarned
    else
      let poolFeeRate := feeRate / 1000000
      let liquidityRatio := if globalLiquidity > 0 then position.liquidity / globalLiquidity else 0
      let priceChange := |currentPrice - position.entryPrice| / position.entryPrice
      let baseVolume := position.amountUsd * 0.03
      let volatilityFactor := 1 + priceChange * 2
      let timeFactor := min (timeHeld / 24) 1
      let liquidityFactor := min (liquidityRatio * 50) 1
      let dailyVolume := baseVolume * volatilityFactor * timeFactor
      let ourShare := liquidityFactor
      let newFees := dailyVolume * poolFeeRate * ourShare
      let randomFactor := 0.7 + rand * 0.6
      position.feesEarned + max 0 (newFees * randomFactor)

/-- `calculatePositionDistance(tick, position)` from calculations.ts:
the sentinel -1 when the tick is outside `[lower, upper]`, otherwise the tick
distance to the nearer bound. -/
def calculatePositionDistance (tick : ℤ) (position : Position) : ℤ :=
  if tick < position.lower ∨ tick > position.upper then -1
  else min (tick - position.lower) (position.upper - tick)

/-- `shouldClosePosition(tick, position, D)` from calculations.ts: close when
out of range, near the edge after a 12h dwell, at the -25% stop loss, at the
40% take profit near the edge after 24h, stale after 120h below 5% return,
or above 15% impermanent loss. -/
noncomputable def shouldClosePosition (now : ℝ) (tick : ℤ) (position : Position)
    (D : ℤ) : Bool :=
  let distance := calculatePositionDistance tick position
  let timeHeld := calculateTimeHeld now position.enteredAt
  if distance = -1 then true
  else if distance < D ∧ timeHeld > 12 then true
  else if position.totalReturn < -25 then true
  else if position.totalReturn > 40 ∧ distance < D ∧ timeHeld > 24 then true
  else if timeHeld > 120 ∧ position.totalReturn < 5 then true
  else if position.impermanentLoss > 15 then true
  else false

/-- `shouldRebalancePosition(position, currentTick, currentPrice, W, B)` from
calculations.ts: rejected during the 24h cooldown or below -15% return, granted
when close to the edge (relative to the buffer `B`) while sufficiently profitable
or fee-rich. -/
noncomputable def shouldRebalancePosition (now : ℝ) (position : Position)
    (currentTick : ℤ) (currentPrice W B : ℝ) : Bool :=
  let distance := calculatePositionDistance currentTick position
  let timeHeld := calculateTimeHeld now position.enteredAt
  if (match position.lastRebalanceAt with
      | some t => decide (calculateTimeHeld now t < 24)
      | none => false) then false
  else if position.totalReturn < -15 then false
  else if (distance : ℝ) < B / 3 ∧ position.totalReturn > 3 then true
  else if position.totalReturn > 15 ∧ (distance : ℝ) < B / 2 then true
  else if position.totalReturn > 20 ∧ (distance : ℝ) < B / 2 ∧ timeHeld > 48 then true
  else if position.feesEarned > position.amountUsd * 0.05 ∧ (distance : ℝ) < B / 2 then true
  else false

/-- `shouldHoldPosition` from calculations.ts: `return true; // Always hold for now`. -/
def shouldHoldPosition (_tick : ℤ) (_position : Position) (_B : ℝ) : Bool :=
  true

/-- Market trend label of `analyzeMarketTrend`. -/
inductive Trend where
  | bullish
  | bearish
  | neutral
deriving DecidableEq, Repr

/-- Volatility bucket of `analyzeMarketTrend`. -/
inductive Volatility where
  | low
  | medium
  | high
deriving DecidableEq, Repr

/-- Recommendation label of `analyzeMarketTrend`. -/
inductive Recommendation where
  | add
  | hold
  | avoid
deriving DecidableEq, Repr

/-- Result record of `analyzeMarketTrend`. -/
structure MarketTrend where
  trend : Trend
  strength : ℝ
  volatility : Volatility
  recommendation : Recommendation

/-- `analyzeMarketTrend(currentPrice, twap1h, twap5m, sigma)` from calculations.ts.
The TWAP inputs are optional; the trend branch runs only when both are present
and truthy (nonzero), mirroring `if (twap1h && twap5m)`. -/
noncomputable def analyzeMarketTrend (currentPrice : ℝ) (twap1h twap5m : Option ℝ)
    (sigma : ℝ) : MarketTrend :=
  let base : Trend × ℝ :=
    match twap1h, twap5m with
    | some t1h, some t5m =>
      if t1h ≠ 0 ∧ t5m ≠ 0 then
        let priceVsTwap1h := (currentPrice - t1h) / t1h
        let twap5mVsTwap1h := (t5m - t1h) / t1h
        if priceVsTwap1h > 0.015 ∧ twap5mVsTwap1h > 0.005 then
          (Trend.bullish, min (|priceVsTwap1h| * 100) 100)
        else if priceVsTwap1h < -0.015 ∧ twap5mVsTwap1h < -0.005 then
          (Trend.bearish, min (|priceVsTwap1h| * 100) 100)
        else (Trend.neutral, 0)
      else (Trend.neutral, 0)
    | _, _ => (Trend.neutral, 0)
  let trend := base.1
  let strength := base.2
  let volatility :=
    if sigma > 0.03 then Volatility.high
    else if sigma > 0.015 then Volatility.medium
    else Volatility.low
  let recommendation :=
    if volatility = Volatility.high ∧ sigma > 0.05 then Recommendation.avoid
    else if trend ≠ Trend.neutral ∧ strength > 20 ∧ volatility ≠ Volatility.high then
      Recommendation.add
    else if trend = Trend.neutral ∧ volatility = Volatility.low then Recommendation.add
    else Recommendation.hold
  ⟨trend, strength, volatility, recommendation⟩

/-- `calculateOptimalPositionSize` from calculations.ts (the returned `reason`
string is presentation only and dropped): the base amount
`min(maxUsdPerPosition, totalUsdLimit / maxPositions)` scaled down under
volatility and when few capital slots remain, floored at
`min(300, totalUsdLimit * 0.03)`. -/
noncomputable def calculateOptimalPositionSize (_currentPrice sigma : ℝ)
    (totalUsdLimit maxUsdPerPosition : ℝ) (activePositionsCount maxPositions : ℕ) : ℝ :=
  let baseSize := min maxUsdPerPosition (totalUsdLimit / (maxPositions : ℝ))
  let baseSize :=
    if sigma > 0.03 then baseSize * 0.5
    else if sigma > 0.015 then baseSize * 0.7
    else baseSize * 0.9
  let remainingSlots : ℤ := (maxPositions : ℤ) - (activePositionsCount : ℤ)
  let baseSize :=
    if remainingSlots ≤ 1 then baseSize * 0.6
    else if remainingSlots ≤ 2 then baseSize * 0.8
    else baseSize
  let minSize := min 300 (totalUsdLimit * 0.03)
  max minSize baseSize

/-- Result record of `shouldAddNewPosition` (the `reason` string is dropped). -/
structure AddSignal where
  shouldAdd : Bool
  confidence : ℝ
  recommendedSize : Option ℝ

/-- `shouldAddNewPosition` from calculations.ts: the new-position gate.  Rejects
at capacity, on an avoid recommendation, under extreme volatility, on a range
overlapping the current tick, or with insufficient capital for half the
recommended size; otherwise grants with a confidence score and the recommended
size.  (`analyzeMarketTrend` is called with `twap5m = undefined`.) -/
noncomputable def shouldAddNewPosition (currentTick : ℤ) (currentPrice : ℝ)
    (twap1h : Option ℝ) (sigma : ℝ) (activePositions : List Position)
    (maxPositions : ℕ) (totalUsdLimit maxUsdPerPosition : ℝ) : AddSignal :=
  if activePositions.length ≥ maxPositions then ⟨false, 0, none⟩
  else
    let t := analyzeMarketTrend currentPrice twap1h none sigma
    if t.recommendation = Recommendation.avoid then ⟨false, 0.1, none⟩
    else if t.volatility = Volatility.high ∧ sigma > 0.05 then ⟨false, 0.1, none⟩
    else
      let hasOverlap := activePositions.any fun pos =>
        decide (pos.lower ≤ currentTick) && decide (currentTick ≤ pos.upper)
      if hasOverlap then ⟨false, 0.1, none⟩
      else
        let positionSizing := calculateOptimalPositionSize currentPrice sigma
          totalUsdLimit maxUsdPerPosition activePositions.length maxPositions
        let availableAmount :=
          totalUsdLimit - (activePositions.map (·.amountUsd)).sum
        if availableAmount < positionSizing * 0.5 then ⟨false, 0.2, none⟩
        else
          let confidence :=
            if t.recommendation = Recommendation.add ∧ t.trend ≠ Trend.neutral ∧
                t.strength > 20 then (0.9 : ℝ)
            else if t.recommendation = Recommendation.add ∧ t.volatility = Volatility.low then 0.8
            else if t.recommendation = Recommendation.add then 0.7
            else if t.recommendation = Recommendation.hold ∧ t.volatility = Volatility.low then 0.6
            else 0.4
          ⟨true, confidence, some positionSizing⟩

/-- Result record of `calculateLiquidity`. -/
structure LiquidityResult where
  liquidity : ℝ
  token0Amount : ℝ
  token1Amount : ℝ

/-- `calculateLiquidity(amountUsd, currentPrice, lowerTick, upperTick, dec0, dec1)`
from calculations.ts: Uniswap-V3 style liquidity and token split for the three
price regimes, over square-root prices scaled by `Q96 = 2^96`. -/
noncomputable def calculateLiquidity (amountUsd currentPrice : ℝ)
    (lowerTick upperTick dec0 dec1 : ℤ) : LiquidityResult :=
  let lowerPrice := tickToPrice lowerTick dec0 dec1
  let upperPrice := tickToPrice upperTick dec0 dec1
  let Q96 : ℝ := 2 ^ (96 : ℕ)
  let sqrtPrice := Real.sqrt currentPrice * Q96
  let sqrtLower := Real.sqrt lowerPrice * Q96
  let sqrtUpper := Real.sqrt upperPrice * Q96
  let halfAmount := amountUsd / 2
  let token0Amount := halfAmount
  let token1Amount := halfAmount / currentPrice
  if currentPrice ≤ lowerPrice then
    { liquidity := token1Amount * Q96 / (sqrtUpper - sqrtLower)
      token0Amount := 0
      token1Amount := token1Amount }
  else if currentPrice ≥ upperPrice then
    { liquidity := token0Amount * sqrtPrice * sqrtLower / (Q96 * (sqrtUpper - sqrtLower))
      token0Amount := token0Amount
      token1Amount := 0 }
  else
    let liquidity0 := token0Amount * sqrtPrice * sqrtLower / (Q96 * (sqrtPrice - sqrtLower))
    let liquidity1 := token1Amount * Q96 / (sqrtUpper - sqrtPrice)
    let liquidity := min liquidity0 liquidity1
    { liquidity := liquidity
      token0Amount := liquidity * (sqrtPrice - sqrtLower) / (sqrtPrice * sqrtLower / Q96)
      token1Amount := liquidity * (sqrtUpper - sqrtPrice) / Q96 }

/-- `calculatePortfolioMetrics(state)` from calculations.ts: recomputes the
aggregate counters (fees, impermanent loss, total return, win rate, durations,
trade counts, max drawdown, Sharpe-like ratio) from the full ledger.  The
clock is passed explicitly. -/
noncomputable def calculatePortfolioMetrics (now : ℝ) (state : SimState) : SimState :=
  let closedPositions := state.positions.filter fun p => p.status = Status.closed
  let activePositions := state.positions.filter fun p => p.status = Status.active
  let totalFeesEarned := (state.positions.map fun p => safeNumber p.feesEarned).sum
  let totalImpermanentLoss := (state.positions.map fun p => safeNumber p.impermanentLoss).sum
  let totalInvested := (state.positions.map (·.amountUsd)).sum
  let totalCurrentValue := (activePositions.map fun p => safeNumber p.currentValue).sum
  let totalRealizedValue :=
    (closedPositions.map fun p => safeNumber p.currentValue + safeNumber p.feesEarned).sum
  let totalValue := totalCurrentValue + totalRealizedValue
  let totalPnL := totalValue - totalInvested
  let totalReturn := if state.positions.length > 0 then totalPnL / totalInvested * 100 else 0
  let profitablePositions :=
    (closedPositions.filter fun p =>
      safeNumber p.currentValue + safeNumber p.feesEarned > p.amountUsd).length
  let winRate :=
    if closedPositions.length > 0 then
      (profitablePositions : ℝ) / (closedPositions.length : ℝ) * 100
    else 0
  let totalDuration :=
    (state.positions.map fun p =>
      let endTime := if p.status = Status.closed then p.lastUpdateAt else now
      (endTime - p.enteredAt) / (1000 * 60 * 60)).sum
  let averagePositionDuration :=
    if state.positions.length > 0 then totalDuration / (state.positions.length : ℝ) else 0
  let drawdownAcc :=
    state.positions.foldl
      (fun (acc : ℝ × ℝ × ℝ) position =>
        let currentValue :=
          if position.status = Status.closed then
            acc.2.2 + (safeNumber position.currentValue + safeNumber position.feesEarned)
          else acc.2.2 + safeNumber position.currentValue
        let maxValue := if currentValue > acc.1 then currentValue else acc.1
        let drawdown := (maxValue - currentValue) / maxValue * 100
        let maxDrawdown := if drawdown > acc.2.1 then drawdown else acc.2.1
        (maxValue, maxDrawdown, currentValue))
      (0, 0, 0)
  let simulationDuration := (now - state.simulationStartTime) / (1000 * 60 * 60 * 24)
  let dailyReturn := if simulationDuration > 0 then totalReturn / simulationDuration else 0
  let volatility :=
    Real.sqrt (totalImpermanentLoss / max 1 ((state.positions.length : ℝ)))
  let sharpeRatio := if volatility > 0 then dailyReturn / volatility else 0
  { state with
    totalFeesEarned := totalFeesEarned
    totalImpermanentLoss := totalImpermanentLoss
    totalReturn := totalReturn
    winRate := winRate
    averagePositionDuration := averagePositionDuration
    totalTrades := state.positions.length
    successfulTrades := profitablePositions
    maxDrawdown := drawdownAcc.2.1
    sharpeRatio := sharpeRatio
    lastUpdateAt := now }

/-! ## State manager (stateManager.ts) -/

/-- `canAddPosition(state, amountUsd)` from stateManager.ts: the three capital
gates — active count below `maxPositions`, recorded invested total plus the new
amount within `totalUsdLimit`, and the amount within `maxUsdPerPosition`. -/
def canAddPosition (state : SimState) (amountUsd : ℝ) : Prop :=
  (state.positions.filter fun p => p.status = Status.active).length < state.maxPositions ∧
  state.totalUsdInvested + amountUsd ≤ state.totalUsdLimit ∧
  amountUsd ≤ state.maxUsdPerPosition

noncomputable instance (state : SimState) (amountUsd : ℝ) :
    Decidable (canAddPosition state amountUsd) := by
  unfold canAddPosition
  infer_instance

/-- `getActivePositions(state)` from stateManager.ts. -/
def getActivePositions (state : SimState) : List Position :=
  state.positions.filter fun p => p.status = Status.active

/-- `createNewPosition` from stateManager.ts; the random `generatePositionId()`
is passed explicitly, and the second-resolution `timestamp` is stored as the
millisecond instant `timestamp * 1000` it denotes. -/
def createNewPosition (id : String) (lower upper tick : ℤ)
    (price amountUsd liquidity token0Amount token1Amount timestamp : ℝ) : Position :=
  { id := id
    lower := lower
    upper := upper
    enteredAt := timestamp * 1000
    entryTick := tick
    entryPrice := price
    amountUsd := amountUsd
    status := Status.active
    feesEarned := 0
    lastRebalanceAt := none
    rebalanceCount := 0
    liquidity := liquidity
    token0Amount := token0Amount
    token1Amount := token1Amount
    currentValue := amountUsd
    impermanentLoss := 0
    totalReturn := 0
    lastUpdateAt := timestamp * 1000 }

/-! ## Portfolio manager (portfolioManager.ts, current variant)

The evaluation cycle `processPositions` of the current portfolioManager.ts
variant: every active position is re-evaluated (`processExistingPosition`, which
calls `shouldClosePosition(tick, position, 0)` and
`shouldRebalancePosition(position, tick, price, 0, 0)`), then the new-position
gate `checkForNewPosition` runs, then `calculatePortfolioMetrics`.  `saveState`
is I/O and the identity on the in-memory state.  External inputs of one cycle —
the market snapshot, the clock, and the position id the PRNG would generate —
are gathered in `CycleParams`; the per-position `Math.random()` draws are a
function of the position's index in the ledger. -/

/-- External inputs of one evaluation cycle. -/
structure CycleParams where
  now : ℝ
  tick : ℤ
  price : ℝ
  dec0 : ℤ
  dec1 : ℤ
  globalLiquidity : ℝ
  fee : ℝ
  spacing : ℤ
  lowerReco : ℤ
  upperReco : ℤ
  twap1h : Option ℝ
  sigma : Option ℝ
  newId : String

/-- Close reason chain of `processExistingPosition` (template strings modelled
as tags): out of range, stop loss, take profit, high impermanent loss, or
near the edge. -/
inductive CloseReason where
  | outOfRange
  | stopLoss
  | takeProfit
  | highIL
  | nearEdge
deriving DecidableEq, Repr

/-- The withdraw-reason chain of `processExistingPosition`, evaluated on the
metric-updated position: `distance === -1` → out of range; `totalReturn < -25`
→ stop loss; `totalReturn > 40` → take profit; `impermanentLoss > 15` → high
impermanent loss; otherwise near the edge. -/
noncomputable def closeDecisionReason (position : Position) (distance : ℤ) : CloseReason :=
  if distance = -1 then CloseReason.outOfRange
  else if position.totalReturn < -25 then CloseReason.stopLoss
  else if position.totalReturn > 40 then CloseReason.takeProfit
  else if position.impermanentLoss > 15 then CloseReason.highIL
  else CloseReason.nearEdge

/-- `closePosition` of the current variant: marks the position closed, keeps
`amountUsd` (`totalUsdInvested` is deliberately not reduced), credits the fees
to the portfolio and charges one gas cost.  Returns the updated position and
the `(Δ totalFeesEarned, Δ totalGasSpent)` pair. -/
noncomputable def closePosition (cp : CycleParams) (gasCost : ℝ) (position : Position)
    (feesEarned currentValue impermanentLoss totalReturn : ℝ) : Position × ℝ × ℝ :=
  ({ position with
      status := Status.closed
      lastUpdateAt := cp.now
      currentValue := currentValue
      feesEarned := feesEarned
      impermanentLoss := impermanentLoss
      totalReturn := totalReturn },
    feesEarned, gasCost)

/-- `rebalancePosition` of the current variant: widens/narrows a base width of
40 ticks by performance, snaps it to the spacing, recenters the bounds around
the current tick, resets entry data and fees, reallocates to
`max(currentValue + feesEarned, 0.8 * amountUsd)` and charges one gas cost. -/
noncomputable def rebalancePosition (cp : CycleParams) (gasCost : ℝ) (position : Position)
    (feesEarned currentValue totalReturn : ℝ) : Position × ℝ × ℝ :=
  let rangeWidth : ℤ := if totalReturn > 20 then 30 else if totalReturn < -10 then 60 else 40
  let rangeWidth : ℤ := ⌈(rangeWidth : ℝ) / (cp.spacing : ℝ)⌉ * cp.spacing
  let newLower := roundDownToSpacing (cp.tick - Int.fdiv rangeWidth 2) cp.spacing
  let newUpper := newLower + rangeWidth
  let newAmountUsd := max (currentValue + feesEarned) (position.amountUsd * 0.8)
  let liq := calculateLiquidity newAmountUsd cp.price newLower newUpper cp.dec0 cp.dec1
  ({ position with
      rebalanceCount := position.rebalanceCount + 1
      lastRebalanceAt := some cp.now
      lower := newLower
      upper := newUpper
      entryTick := cp.tick
      entryPrice := cp.price
      amountUsd := newAmountUsd
      liquidity := liq.liquidity
      token0Amount := liq.token0Amount
      token1Amount := liq.token1Amount
      feesEarned := 0 },
    0, gasCost)

/-- `processExistingPosition` of the current variant: recomputes the derived
metrics, writes them into the position, then dispatches — withdraw when
`shouldClosePosition(tick, ·, 0)`, rebalance when
`shouldRebalancePosition(·, tick, price, 0, 0)`, otherwise hold (log only).
Returns the updated position and the `(Δ fees, Δ gas)` pair. -/
noncomputable def processExistingPosition (cp : CycleParams) (rand gasCost : ℝ)
    (position : Position) : Position × ℝ × ℝ :=
  let distance := calculatePositionDistance cp.tick position
  let feesEarned := calculateFeesEarned cp.now rand position cp.tick cp.price
    cp.globalLiquidity cp.fee
  let currentValue := calculateCurrentPositionValue position cp.price cp.tick cp.dec0 cp.dec1
  let impermanentLoss := calculateImpermanentLoss position.entryPrice cp.price
  let totalReturn := (currentValue + feesEarned - position.amountUsd) / position.amountUsd * 100
  let position :=
    { position with
        feesEarned := feesEarned
        currentValue := currentValue
        impermanentLoss := impermanentLoss
        totalReturn := totalReturn
        lastUpdateAt := cp.now }
  if shouldClosePosition cp.now cp.tick position 0 then
    closePosition cp gasCost position feesEarned currentValue impermanentLoss totalReturn
  else if shouldRebalancePosition cp.now position cp.tick cp.price 0 0 then
    rebalancePosition cp gasCost position feesEarned currentValue totalReturn
  else
    (position, 0, 0)

/-- The `for (const position of activePositions)` loop of `processPositions`:
each active position is processed in place, closed positions pass through
untouched; the fee and gas deltas are accumulated. -/
noncomputable def processActiveList (cp : CycleParams) (rand : ℕ → ℝ) (gasCost : ℝ) :
    ℕ → List Position → List Position × ℝ × ℝ
  | _, [] => ([], 0, 0)
  | i, p :: ps =>
    let rest := processActiveList cp rand gasCost (i + 1) ps
    if p.status = Status.active then
      let r := processExistingPosition cp (rand i) gasCost p
      (r.1 :: rest.1, r.2.1 + rest.2.1, r.2.2 + rest.2.2)
    else
      (p :: rest.1, rest.2.1, rest.2.2)

/-- `getTotalInvested()` of the current variant: the sum of `amountUsd` over
active positions only. -/
def getTotalInvested (state : SimState) : ℝ :=
  ((state.positions.filter fun p => p.status = Status.active).map (·.amountUsd)).sum

/-- `checkForNewPosition` of the current variant: computes the available amount
from the active total, rejects below the $500 ticket minimum, consults
`shouldAddNewPosition`, takes `recommendedSize || amountUsd`, and appends the
new position when the signal and `canAddPosition` both grant (charging one gas
cost; `totalUsdInvested` is not updated). -/
noncomputable def checkForNewPosition (cp : CycleParams) (state : SimState) : SimState :=
  let activePositions := getActivePositions state
  let currentInvested := getTotalInvested state
  let availableAmount := state.totalUsdLimit - currentInvested
  let amountUsd := min state.maxUsdPerPosition availableAmount
  if amountUsd < 500 then state
  else
    let signalAnalysis := shouldAddNewPosition cp.tick cp.price cp.twap1h
      (cp.sigma.getD 0) activePositions state.maxPositions
      state.totalUsdLimit state.maxUsdPerPosition
    let finalAmount :=
      match signalAnalysis.recommendedSize with
      | some sz => if sz = 0 then amountUsd else sz
      | none => amountUsd
    if signalAnalysis.shouldAdd ∧ canAddPosition state finalAmount then
      let liq := calculateLiquidity finalAmount cp.price cp.lowerReco cp.upperReco
        cp.dec0 cp.dec1
      let newPosition := createNewPosition cp.newId cp.lowerReco cp.upperReco cp.tick
        cp.price finalAmount liq.liquidity liq.token0Amount liq.token1Amount
        (cp.now / 1000)
      { state with
          positions := state.positions ++ [newPosition]
          totalGasSpent := state.totalGasSpent + state.gasCostPerTransaction }
    else state

/-- `processPositions` of the current variant: one full evaluation cycle —
process every active position, run the new-position gate, recompute the
portfolio metrics (and persist, a no-op on the in-memory state). -/
noncomputable def processPositions (cp : CycleParams) (rand : ℕ → ℝ)
    (state : SimState) : SimState :=
  let r := processActiveList cp rand state.gasCostPerTransaction 0 state.positions
  let state :=
    { state with
        positions := r.1
        totalFeesEarned := state.totalFeesEarned + r.2.1
        totalGasSpent := state.totalGasSpent + r.2.2 }
  let state := checkForNewPosition cp state
  calculatePortfolioMetrics cp.now state

/-- A sequence of evaluation cycles, each with its own external inputs. -/
noncomputable def runCycles (cycles : List (CycleParams × (ℕ → ℝ))) (state : SimState) :
    SimState :=
  cycles.foldl (fun s c => processPositions c.1 c.2 s) state

/-- Specification-side scan order of the rightward walk ("walking outward"):
bits `start .. 255` of word `w` in ascending order, then bits `0 .. 255` of
`w+1`, `w+2`, … for `fuel` words in total. -/
def rightScanOrder (w start : ℤ) : ℕ → List (ℤ × ℕ)
  | 0 => []
  | fuel + 1 =>
    (((List.range 256).filter fun (b : ℕ) => start ≤ (b : ℤ)).map fun b => (w, b)) ++
      rightScanOrder (w + 1) 0 fuel

/-- Specification-side scan order of the leftward walk: bits `start .. 0` of
word `w` in descending order, then bits `255 .. 0` of `w-1`, `w-2`, … for
`fuel` words in total. -/
def leftScanOrder (w start : ℤ) : ℕ → List (ℤ × ℕ)
  | 0 => []
  | fuel + 1 =>
    (((List.range 256).reverse.filter fun (b : ℕ) => (b : ℤ) ≤ start).map fun b => (w, b)) ++
      leftScanOrder (w - 1) 255 fuel

/-- Total `amountUsd` committed to the active positions of a ledger
(the quantity bounded by `totalUsdLimit` in the capital-gate invariant). -/
noncomputable def sumActive (l : List Position) : ℝ :=
  ((l.filter fun p => p.status = Status.active).map (·.amountUsd)).sum

/-- Number of active positions of a ledger (the quantity bounded by
`maxPositions` in the capital-gate invariant). -/
def countActive (l : List Position) : ℕ :=
  (l.filter fun p => p.status = Status.active).length

/-! ## Concrete fixtures used to instantiate the theorems -/

/-- A sample in-range active position. -/
noncomputable def samplePosition : Position :=
  { id := "pos-a"
    lower := -120
    upper := 120
    enteredAt := 0
    entryTick := 0
    entryPrice := 1
    amountUsd := 1000
    status := Status.active
    feesEarned := 0
    lastRebalanceAt := none
    rebalanceCount := 0
    liquidity := 0
    token0Amount := 500
    token1Amount := 500
    currentValue := 1000
    impermanentLoss := 0
    totalReturn := 0
    lastUpdateAt := 0 }

/-- A sample closed position. -/
noncomputable def sampleClosedPosition : Position :=
  { samplePosition with id := "pos-b", status := Status.closed }

/-- A sample portfolio state: one active position that consumes the whole
capital limit. -/
noncomputable def sampleState : SimState :=
  { positions := [samplePosition]
    totalUsdInvested := 1000
    maxPositions := 5
    maxUsdPerPosition := 2000
    totalUsdLimit := 1000
    totalFeesEarned := 0
    totalImpermanentLoss := 0
    totalReturn := 0
    winRate := 0
    averagePositionDuration := 0
    lastUpdateAt := 0
    simulationStartTime := 0
    totalTrades := 0
    successfulTrades := 0
    maxDrawdown := 0
    sharpeRatio := 0
    totalGasSpent := 0
    gasCostPerTransaction := 5 }

/-- The sample state with its only position closed. -/
noncomputable def sampleClosedState : SimState :=
  { sampleState with positions := [sampleClosedPosition] }

/-- Sample external inputs of one evaluation cycle. -/
noncomputable def sampleCycle : CycleParams :=
  { now := 3600000
    tick := 0
    price := 1
    dec0 := 6
    dec1 := 18
    globalLiquidity := 0
    fee := 3000
    spacing := 60
    lowerReco := -120
    upperReco := 120
    twap1h := none
    sigma := none
    newId := "pos-new" }

/-! ## Theorems -/

/-! ### Shared helper lemmas -/

/-- The impermanent-loss multiplier is invariant under inverting the price
ratio, for positive ratios. -/
theorem ilMultiplier_inv (r : ℝ) (hr : 0 < r) :
    2 * Real.sqrt r⁻¹ / (1 + r⁻¹) = 2 * Real.sqrt r / (1 + r) := by
  have hs : Real.sqrt r ≠ 0 := by positivity
  have h1 : (1 : ℝ) + r ≠ 0 := by positivity
  have hrne : r ≠ 0 := ne_of_gt hr
  have hss : Real.sqrt r * Real.sqrt r = r := Real.mul_self_sqrt hr.le
  rw [Real.sqrt_inv]
  field_simp
  nlinarith [hss]

/-- `calculateImpermanentLoss` is symmetric in its two price arguments. -/
theorem calculateImpermanentLoss_symm (a b : ℝ) :
    calculateImpermanentLoss a b = calculateImpermanentLoss b a := by
  simp only [calculateImpermanentLoss]
  by_cases ha : a = 0
  · simp [ha]
  by_cases hb : b = 0
  · simp [hb]
  rw [if_neg (by tauto), if_neg (by tauto)]
  rcases lt_trichotomy (b / a) 0 with hr | hr | hr
  · have hr' : a / b < 0 := by
      rw [← inv_div b a]
      exact inv_lt_zero.mpr hr
    rw [Real.sqrt_eq_zero_of_nonpos hr.le, Real.sqrt_eq_zero_of_nonpos hr'.le]
    norm_num
  · exact absurd hr (div_ne_zero hb ha)
  · rw [← inv_div b a, ilMultiplier_inv _ hr]

/-- `calculateImpermanentLoss` vanishes on equal prices. -/
theorem calculateImpermanentLoss_self (p : ℝ) : calculateImpermanentLoss p p = 0 := by
  simp only [calculateImpermanentLoss]
  by_cases hp : p = 0
  · simp [hp]
  rw [if_neg (by tauto), div_self hp]
  norm_num

/-! ### C2 — `roundDownToSpacing` on negative, non-exact ticks -/

/-- C2: `roundDownToSpacing` does not return the greatest spacing multiple at
or below the tick.  At tick -50 with spacing 60 it returns -120, although -60
is a multiple of 60 with -60 ≤ -50, and -120 lies strictly below it — one full
spacing unit below the already-correct floor division (`Math.floor` rounds
toward -∞, so the extra "negative tick" compensation subtracts spacing a
second time). -/
theorem roundDownToSpacing_neg50_bug :
    roundDownToSpacing (-50) 60 = -120 ∧
    (60 : ℤ) ∣ (-60 : ℤ) ∧ (-60 : ℤ) ≤ -50 ∧
    roundDownToSpacing (-50) 60 < -60 ∧
    Int.fdiv (-50) 60 * 60 = -60 := by
  decide

/-! ### C4 — bitmap coordinates versus floor division -/

/-- C4: the bitmap coordinates do not decompose the floor-divided compressed
tick.  At tick -50 with spacing 60, `floorDiv(-50, 60) = -1`, but the program
applies the truncation compensation on top of `Math.floor` and lands on the
compressed tick -2: word -1 and bit 254, whose recomposition
`word * 256 + bit = -2` differs from the floor division by one. -/
theorem wordOfTick_bitPos_neg50_bug :
    wordOfTick (-50) 60 = -1 ∧
    bitPosOfTick (-50) 60 = 254 ∧
    wordOfTick (-50) 60 * 256 + bitPosOfTick (-50) 60 = -2 ∧
    Int.fdiv (-50) 60 = -1 ∧
    wordOfTick (-50) 60 * 256 + bitPosOfTick (-50) 60 ≠ Int.fdiv (-50) 60 := by
  decide

/-! ### C3 — impermanent loss: symmetry and vanishing diagonal -/

/-- C3 (counterexample): contrary to the claim, no pair of prices makes
`calculateImpermanentLoss` asymmetric — the function is symmetric in exact
arithmetic, because the multiplier `2·√r/(1+r)` is invariant under `r ↦ 1/r`
and every guard case (zero or negative prices) is symmetric as well. -/
theorem calculateImpermanentLoss_no_asymmetric_pair :
    ¬ ∃ entryPrice currentPrice : ℝ,
      calculateImpermanentLoss entryPrice currentPrice ≠
        calculateImpermanentLoss currentPrice entryPrice := by
  rintro ⟨a, b, h⟩
  exact h (calculateImpermanentLoss_symm a b)

/-- C3 (amended): `calculateImpermanentLoss(entry, current)` equals
`calculateImpermanentLoss(current, entry)` for all prices, and
`calculateImpermanentLoss(p, p) = 0` for every price p. -/
theorem calculateImpermanentLoss_symm_and_diag :
    (∀ entryPrice currentPrice : ℝ,
      calculateImpermanentLoss entryPrice currentPrice =
        calculateImpermanentLoss currentPrice entryPrice) ∧
    ∀ p : ℝ, calculateImpermanentLoss p p = 0 :=
  ⟨calculateImpermanentLoss_symm, calculateImpermanentLoss_self⟩

/-! ### C10 — in-range value floor -/

/-- C10: for a position whose range contains the current tick, the simulated
position value is clamped below at 10% of the committed capital. -/
theorem calculateCurrentPositionValue_inRange_floor (position : Position)
    (currentPrice : ℝ) (currentTick dec0 dec1 : ℤ)
    (h1 : position.lower ≤ currentTick) (h2 : currentTick ≤ position.upper) :
    0.1 * position.amountUsd ≤
      calculateCurrentPositionValue position currentPrice currentTick dec0 dec1 := by
  simp only [calculateCurrentPositionValue]
  rw [if_neg (not_lt.mpr h1), if_neg (not_lt.mpr h2)]
  calc 0.1 * position.amountUsd = position.amountUsd * 0.1 := by ring
    _ ≤ _ := le_max_right _ _

/-- C10 (witness): the sample in-range position at tick 0. -/
theorem calculateCurrentPositionValue_inRange_floor_witness :
    (samplePosition.lower ≤ 0 ∧ (0 : ℤ) ≤ samplePosition.upper) ∧
    0.1 * samplePosition.amountUsd ≤
      calculateCurrentPositionValue samplePosition 4 0 6 18 :=
  ⟨⟨by norm_num [samplePosition], by norm_num [samplePosition]⟩,
    calculateCurrentPositionValue_inRange_floor samplePosition 4 0 6 18
      (by norm_num [samplePosition]) (by norm_num [samplePosition])⟩

/-! ### C8 — `widthFromSigma` at zero volatility -/

/-- C8: with `sigma = 0` both `widthFromSigma` variants return their configured
minimum width — `4 * tickSpacing` for the clamped variant and `6 * tickSpacing`
for the floor-only variant — a positive multiple of the (positive) tick
spacing, never 0, for every horizon and confidence multiplier. -/
theorem widthFromSigma_zero_sigma (T_hours z tickSpacing : ℝ)
    (hs : 0 < tickSpacing) :
    widthFromSigma 0 T_hours z tickSpacing = 4 * tickSpacing ∧
    widthFromSigma' 0 T_hours z tickSpacing = 6 * tickSpacing ∧
    0 < 4 * tickSpacing ∧ 0 < 6 * tickSpacing := by
  have h4 : (0 : ℝ) < 4 * tickSpacing := by positivity
  have h6 : (0 : ℝ) < 6 * tickSpacing := by positivity
  refine ⟨?_, ?_, h4, h6⟩
  · simp only [widthFromSigma, mul_zero, zero_mul, zero_div, mul_comm]
    norm_num
    left
    exact hs.le
  · simp only [widthFromSigma', mul_zero, zero_mul, zero_div, mul_comm]
    norm_num
    exact hs.le

/-- C8 (witness): the spec scenario `sigma = 0, horizon = 24h, z = 1.28,
spacing = 60`. -/
theorem widthFromSigma_zero_sigma_witness :
    (0 : ℝ) < 60 ∧ widthFromSigma 0 24 1.28 60 = 4 * 60 ∧
      widthFromSigma' 0 24 1.28 60 = 6 * 60 :=
  ⟨by norm_num, (widthFromSigma_zero_sigma 24 1.28 60 (by norm_num)).1,
    (widthFromSigma_zero_sigma 24 1.28 60 (by norm_num)).2.1⟩

/-! ### C6 — the capital gate dominates the new-position request -/

/-- C6: when the invested capital (the active-position total the gate reads)
already equals `totalUsdLimit`, `checkForNewPosition` rejects for every market
signal — the available amount is 0, hence below the $500 ticket minimum — and
returns the state unchanged: no position is appended and no counter moves. -/
theorem checkForNewPosition_rejects_at_capital_limit (cp : CycleParams)
    (state : SimState) (h : getTotalInvested state = state.totalUsdLimit) :
    checkForNewPosition cp state = state := by
  have h0 : min state.maxUsdPerPosition (state.totalUsdLimit - getTotalInvested state) <
      500 := by
    rw [h, sub_self]
    exact lt_of_le_of_lt (min_le_right _ _) (by norm_num)
  simp only [checkForNewPosition]
  rw [if_pos h0]

/-- C6 (witness): the sample state invests its whole $1000 limit, and the gate
leaves it untouched for the sample cycle inputs. -/
theorem checkForNewPosition_rejects_at_capital_limit_witness :
    getTotalInvested sampleState = sampleState.totalUsdLimit ∧
    checkForNewPosition sampleCycle sampleState = sampleState := by
  have h : getTotalInvested sampleState = sampleState.totalUsdLimit := by
    simp [getTotalInvested, sampleState, samplePosition]
  exact ⟨h, checkForNewPosition_rejects_at_capital_limit sampleCycle sampleState h⟩

/-! ### C7 — out-of-range positions are closed -/

/-- C7: when the current tick lies outside a position's range,
`calculatePositionDistance` returns the sentinel -1, `shouldClosePosition`
returns true, the withdraw-reason chain selects the out-of-range reason, and
`processExistingPosition` marks the position closed. -/
theorem outOfRange_position_closes (cp : CycleParams) (rand gasCost : ℝ)
    (position : Position)
    (h : cp.tick < position.lower ∨ position.upper < cp.tick) :
    calculatePositionDistance cp.tick position = -1 ∧
    shouldClosePosition cp.now cp.tick position 0 = true ∧
    closeDecisionReason position (calculatePositionDistance cp.tick position) =
      CloseReason.outOfRange ∧
    (processExistingPosition cp rand gasCost position).1.status = Status.closed := by
  have h' : cp.tick < position.lower ∨ cp.tick > position.upper := h
  have hd : calculatePositionDistance cp.tick position = -1 := by
    simp only [calculatePositionDistance]
    rw [if_pos h']
  have hsc : ∀ q : Position, q.lower = position.lower → q.upper = position.upper →
      shouldClosePosition cp.now cp.tick q 0 = true := by
    intro q hl hu
    simp only [shouldClosePosition, calculatePositionDistance, hl, hu]
    rw [if_pos h']
    simp
  refine ⟨hd, hsc position rfl rfl, ?_, ?_⟩
  · simp [closeDecisionReason, hd]
  · simp [processExistingPosition, closePosition, hsc]

/-- C7 (witness): tick 300 lies above the sample position's range [-120, 120],
and the cycle takes the close decision on it. -/
theorem outOfRange_position_closes_witness :
    ((300 : ℤ) < samplePosition.lower ∨ samplePosition.upper < 300) ∧
    calculatePositionDistance 300 samplePosition = -1 ∧
    (processExistingPosition { sampleCycle with tick := 300 } 0 5 samplePosition).1.status =
      Status.closed := by
  have h : ({ sampleCycle with tick := 300 } : CycleParams).tick < samplePosition.lower ∨
      samplePosition.upper < ({ sampleCycle with tick := 300 } : CycleParams).tick := by
    right
    norm_num [samplePosition, sampleCycle]
  have := outOfRange_position_closes { sampleCycle with tick := 300 } 0 5 samplePosition h
  exact ⟨h, this.1, this.2.2.2⟩

/-! ### C5 — boundary scanner characterization -/

/-- An all-zero bitmap word has no set bit to find. -/
theorem firstSetBitFrom_zero (start : ℤ) : firstSetBitFrom 0 start = none := by
  simp [firstSetBitFrom, isBitSet, List.find?_eq_none]

/-- An all-zero bitmap word has no set bit to find, downward version. -/
theorem lastSetBitUpTo_zero (start : ℤ) : lastSetBitUpTo 0 start = none := by
  simp [lastSetBitUpTo, isBitSet, List.find?_eq_none]

/-- The rightward word walk returns exactly the first set bit in the outward
scan order, mapped back to a tick. -/
theorem scanRight_eq_find (bitmaps : ℤ → ℕ) (tickSpacing : ℤ) :
    ∀ (fuel : ℕ) (w start : ℤ),
    scanRight bitmaps tickSpacing fuel w start =
      ((rightScanOrder w start fuel).find? fun wb => isBitSet (bitmaps wb.1) wb.2).map
        fun wb => (wb.1 * 256 + (wb.2 : ℤ)) * tickSpacing := by
  intro fuel
  induction fuel with
  | zero => intro w start; rfl
  | succ n ih =>
    intro w start
    simp only [scanRight, rightScanOrder]
    rw [List.find?_append, List.find?_map]
    have hpred : ((fun wb : ℤ × ℕ => isBitSet (bitmaps wb.1) wb.2) ∘ fun b : ℕ => (w, b)) =
        fun b : ℕ => isBitSet (bitmaps w) b := rfl
    rw [hpred]
    by_cases hbm : bitmaps w = 0
    · rw [if_neg (by simpa using hbm)]
      rw [show ((List.range 256).filter fun (b : ℕ) => start ≤ (b : ℤ)).find?
            (fun b : ℕ => isBitSet (bitmaps w) b) = firstSetBitFrom (bitmaps w) start from rfl]
      rw [hbm, firstSetBitFrom_zero]
      simpa using ih (w + 1) 0
    · rw [if_pos hbm]
      rw [show ((List.range 256).filter fun (b : ℕ) => start ≤ (b : ℤ)).find?
            (fun b : ℕ => isBitSet (bitmaps w) b) = firstSetBitFrom (bitmaps w) start from rfl]
      cases hfb : firstSetBitFrom (bitmaps w) start with
      | none => simpa using ih (w + 1) 0
      | some b => rfl

/-- The leftward word walk returns exactly the first set bit in the outward
scan order, mapped back to a tick. -/
theorem scanLeft_eq_find (bitmaps : ℤ → ℕ) (tickSpacing : ℤ) :
    ∀ (fuel : ℕ) (w start : ℤ),
    scanLeft bitmaps tickSpacing fuel w start =
      ((leftScanOrder w start fuel).find? fun wb => isBitSet (bitmaps wb.1) wb.2).map
        fun wb => (wb.1 * 256 + (wb.2 : ℤ)) * tickSpacing := by
  intro fuel
  induction fuel with
  | zero => intro w start; rfl
  | succ n ih =>
    intro w start
    simp only [scanLeft, leftScanOrder]
    rw [List.find?_append, List.find?_map]
    have hpred : ((fun wb : ℤ × ℕ => isBitSet (bitmaps wb.1) wb.2) ∘ fun b : ℕ => (w, b)) =
        fun b : ℕ => isBitSet (bitmaps w) b := rfl
    rw [hpred]
    by_cases hbm : bitmaps w = 0
    · rw [if_neg (by simpa using hbm)]
      rw [show ((List.range 256).reverse.filter fun (b : ℕ) => (b : ℤ) ≤ start).find?
            (fun b : ℕ => isBitSet (bitmaps w) b) = lastSetBitUpTo (bitmaps w) start from rfl]
      rw [hbm, lastSetBitUpTo_zero]
      simpa using ih (w - 1) 255
    · rw [if_pos hbm]
      rw [show ((List.range 256).reverse.filter fun (b : ℕ) => (b : ℤ) ≤ start).find?
            (fun b : ℕ => isBitSet (bitmaps w) b) = lastSetBitUpTo (bitmaps w) start from rfl]
      cases hfb : lastSetBitUpTo (bitmaps w) start with
      | none => simpa using ih (w - 1) 255
      | some b => rfl

/-- C5: each side of `findNearestInitializedTicks` returns exactly the first
set bit encountered walking outward through the scan order — bits above
(respectively below) the active bit in the active word, then the neighbouring
words out to the radius — converted back to the tick `(word*256 + bit) * spacing`;
and with search radius 0 and an all-zero active word both sides are `null`. -/
theorem findNearestInitializedTicks_characterization (bitmaps : ℤ → ℕ)
    (activeTick tickSpacing : ℤ) (searchWordsEachSide : ℕ) :
    (findNearestInitializedTicks bitmaps activeTick tickSpacing searchWordsEachSide).2 =
      ((rightScanOrder (wordOfTick activeTick tickSpacing)
          (bitPosOfTick activeTick tickSpacing + 1) (searchWordsEachSide + 1)).find?
            fun wb => isBitSet (bitmaps wb.1) wb.2).map
        (fun wb => (wb.1 * 256 + (wb.2 : ℤ)) * tickSpacing) ∧
    (findNearestInitializedTicks bitmaps activeTick tickSpacing searchWordsEachSide).1 =
      ((leftScanOrder (wordOfTick activeTick tickSpacing)
          (bitPosOfTick activeTick tickSpacing - 1) (searchWordsEachSide + 1)).find?
            fun wb => isBitSet (bitmaps wb.1) wb.2).map
        (fun wb => (wb.1 * 256 + (wb.2 : ℤ)) * tickSpacing) ∧
    (searchWordsEachSide = 0 → bitmaps (wordOfTick activeTick tickSpacing) = 0 →
      findNearestInitializedTicks bitmaps activeTick tickSpacing searchWordsEachSide =
        (none, none)) := by
  refine ⟨?_, ?_, ?_⟩
  · simp only [findNearestInitializedTicks]
    exact scanRight_eq_find bitmaps tickSpacing _ _ _
  · simp only [findNearestInitializedTicks]
    exact scanLeft_eq_find bitmaps tickSpacing _ _ _
  · intro hr hbm
    subst hr
    simp only [findNearestInitializedTicks]
    rw [show (0 + 1 : ℕ) = 1 from rfl]
    simp only [scanRight, scanLeft, hbm]
    simp

/-- C5 (witness): tick 100, spacing 60, radius 0 over the empty bitmap — both
sides come back `null`. -/
theorem findNearestInitializedTicks_characterization_witness :
    (0 : ℕ) = 0 ∧ (fun _ : ℤ => (0 : ℕ)) (wordOfTick 100 60) = 0 ∧
    findNearestInitializedTicks (fun _ => 0) 100 60 0 = (none, none) :=
  ⟨rfl, rfl,
    (findNearestInitializedTicks_characterization (fun _ => 0) 100 60 0).2.2 rfl rfl⟩

/-! ### Cycle lemmas for C1 and C9 -/

/-- A position that escapes the close rules is in range. -/
theorem shouldClose_false_distance (now : ℝ) (tick : ℤ) (p : Position) (D : ℤ)
    (h : shouldClosePosition now tick p D = false) :
    calculatePositionDistance tick p ≠ -1 := by
  intro hd
  simp only [shouldClosePosition] at h
  rw [if_pos hd] at h
  simp at h

/-- The distance sentinel characterizes range membership. -/
theorem distance_ne_sentinel_in_range (tick : ℤ) (p : Position)
    (h : calculatePositionDistance tick p ≠ -1) :
    p.lower ≤ tick ∧ tick ≤ p.upper := by
  simp only [calculatePositionDistance] at h
  by_cases hc : tick < p.lower ∨ tick > p.upper
  · rw [if_pos hc] at h
    exact absurd rfl h
  · push_neg at hc
    exact ⟨hc.1, hc.2⟩

/-- In range, the distance to the nearer bound is nonnegative. -/
theorem distance_nonneg_of_in_range (tick : ℤ) (p : Position)
    (h1 : p.lower ≤ tick) (h2 : tick ≤ p.upper) :
    0 ≤ calculatePositionDistance tick p := by
  simp only [calculatePositionDistance]
  rw [if_neg (by omega : ¬(tick < p.lower ∨ tick > p.upper))]
  omega

/-- With buffer `B = 0` — the arguments the current cycle passes — the
rebalance rules can never fire on an in-range position: every granting
condition demands a distance strictly below `0/3` or `0/2`. -/
theorem shouldRebalance_zero_buffer_false (now : ℝ) (p : Position)
    (tick : ℤ) (price : ℝ) (hd : 0 ≤ calculatePositionDistance tick p) :
    shouldRebalancePosition now p tick price 0 0 = false := by
  have hcast : (0 : ℝ) ≤ (calculatePositionDistance tick p : ℝ) := by exact_mod_cast hd
  have h3 : ¬((calculatePositionDistance tick p : ℝ) < 0 / 3) := by
    rw [zero_div]
    exact not_lt.mpr hcast
  have h2 : ¬((calculatePositionDistance tick p : ℝ) < 0 / 2) := by
    rw [zero_div]
    exact not_lt.mpr hcast
  simp only [shouldRebalancePosition]
  split_ifs with hc1 hc2 hc3 hc4 hc5 hc6
  · rfl
  · rfl
  · exact absurd hc3.1 h3
  · exact absurd hc4.2 h2
  · exact absurd hc5.2.1 h2
  · exact absurd hc6.2 h2
  · rfl

/-- `processExistingPosition` never changes the committed amount, and every
position it leaves active is in range. -/
theorem processExistingPosition_spec (cp : CycleParams) (rand gasCost : ℝ)
    (p : Position) :
    (processExistingPosition cp rand gasCost p).1.amountUsd = p.amountUsd ∧
    ((processExistingPosition cp rand gasCost p).1.status = Status.active →
      (processExistingPosition cp rand gasCost p).1.lower ≤ cp.tick ∧
      cp.tick ≤ (processExistingPosition cp rand gasCost p).1.upper ∧
      (processExistingPosition cp rand gasCost p).1.status = p.status) := by
  simp only [processExistingPosition]
  split_ifs with hc hr
  · constructor
    · simp [closePosition]
    · intro habs
      simp [closePosition] at habs
  · exfalso
    have hc' := Bool.not_eq_true _ |>.mp hc
    have hne := shouldClose_false_distance cp.now cp.tick _ 0 hc'
    have hin := distance_ne_sentinel_in_range cp.tick _ hne
    have hge := distance_nonneg_of_in_range cp.tick _ hin.1 hin.2
    rw [shouldRebalance_zero_buffer_false cp.now _ cp.tick cp.price hge] at hr
    simp at hr
  · have hc' := Bool.not_eq_true _ |>.mp hc
    have hne := shouldClose_false_distance cp.now cp.tick _ 0 hc'
    have hin := distance_ne_sentinel_in_range cp.tick _ hne
    exact ⟨rfl, fun _ => ⟨hin.1, hin.2, rfl⟩⟩

/-- Cons rule for `sumActive`, active head. -/
theorem sumActive_cons_active (p : Position) (l : List Position)
    (h : p.status = Status.active) :
    sumActive (p :: l) = p.amountUsd + sumActive l := by
  simp [sumActive, List.filter_cons, h]

/-- Cons rule for `sumActive`, inactive head. -/
theorem sumActive_cons_inactive (p : Position) (l : List Position)
    (h : ¬p.status = Status.active) :
    sumActive (p :: l) = sumActive l := by
  simp [sumActive, List.filter_cons, h]

/-- Cons rule for `countActive`, active head. -/
theorem countActive_cons_active (p : Position) (l : List Position)
    (h : p.status = Status.active) :
    countActive (p :: l) = countActive l + 1 := by
  simp [countActive, List.filter_cons, h]

/-- Cons rule for `countActive`, inactive head. -/
theorem countActive_cons_inactive (p : Position) (l : List Position)
    (h : ¬p.status = Status.active) :
    countActive (p :: l) = countActive l := by
  simp [countActive, List.filter_cons, h]

/-- The per-position phase of a cycle: the active capital total never grows,
the active count never grows, every surviving active position is in range, and
closed positions stay closed at their ledger index. -/
theorem processActiveList_spec (cp : CycleParams) (rand : ℕ → ℝ) (gasCost : ℝ) :
    ∀ (i : ℕ) (l : List Position), (∀ p ∈ l, 0 ≤ p.amountUsd) →
      sumActive (processActiveList cp rand gasCost i l).1 ≤ sumActive l ∧
      countActive (processActiveList cp rand gasCost i l).1 ≤ countActive l ∧
      (∀ q ∈ (processActiveList cp rand gasCost i l).1,
        q.status = Status.active → q.lower ≤ cp.tick ∧ cp.tick ≤ q.upper) ∧
      ∀ (j : ℕ) (p : Position), l[j]? = some p → p.status = Status.closed →
        ∃ q, (processActiveList cp rand gasCost i l).1[j]? = some q ∧
          q.status = Status.closed := by
  intro i l
  induction l generalizing i with
  | nil =>
    intro _
    refine ⟨le_rfl, le_rfl, ?_, ?_⟩
    · intro q hq
      simp [processActiveList] at hq
    · intro j p hp
      simp at hp
  | cons p ps ih =>
    intro hAmt
    have hAmtp : 0 ≤ p.amountUsd := hAmt p (List.mem_cons_self _ _)
    have hAmtps : ∀ q ∈ ps, 0 ≤ q.amountUsd := fun q hq => hAmt q (List.mem_cons_of_mem _ hq)
    obtain ⟨ihSum, ihCount, ihRange, ihClosed⟩ := ih (i + 1) hAmtps
    by_cases hp : p.status = Status.active
    · have hPE := processExistingPosition_spec cp (rand i) gasCost p
      set q := (processExistingPosition cp (rand i) gasCost p).1 with hq
      have hstep : processActiveList cp rand gasCost i (p :: ps) =
          (q :: (processActiveList cp rand gasCost (i + 1) ps).1,
            (processExistingPosition cp (rand i) gasCost p).2.1 +
              (processActiveList cp rand gasCost (i + 1) ps).2.1,
            (processExistingPosition cp (rand i) gasCost p).2.2 +
              (processActiveList cp rand gasCost (i + 1) ps).2.2) := by
        simp only [processActiveList]
        rw [if_pos hp]
      rw [hstep]
      refine ⟨?_, ?_, ?_, ?_⟩
      · rw [sumActive_cons_active p ps hp]
        by_cases hqa : q.status = Status.active
        · rw [sumActive_cons_active q _ hqa, hPE.1]
          exact add_le_add_left ihSum _
        · rw [sumActive_cons_inactive q _ hqa]
          linarith
      · rw [countActive_cons_active p ps hp]
        by_cases hqa : q.status = Status.active
        · rw [countActive_cons_active q _ hqa]
          exact Nat.add_le_add_right ihCount 1
        · rw [countActive_cons_inactive q _ hqa]
          exact ihCount.trans (Nat.le_succ _)
      · intro r hr hra
        rcases List.mem_cons.mp hr with hr | hr
        · subst hr
          exact ⟨(hPE.2 hra).1, (hPE.2 hra).2.1⟩
        · exact ihRange r hr hra
      · intro j r hjr hrc
        cases j with
        | zero =>
          simp only [List.getElem?_cons_zero, Option.some.injEq] at hjr
          subst hjr
          rw [hrc] at hp
          exact absurd hp (by decide)
        | succ j =>
          simp only [List.getElem?_cons_succ] at hjr ⊢
          exact ihClosed j r hjr hrc
    · have hstep : processActiveList cp rand gasCost i (p :: ps) =
          (p :: (processActiveList cp rand gasCost (i + 1) ps).1,
            (processActiveList cp rand gasCost (i + 1) ps).2.1,
            (processActiveList cp rand gasCost (i + 1) ps).2.2) := by
        simp only [processActiveList]
        rw [if_neg hp]
      rw [hstep]
      refine ⟨?_, ?_, ?_, ?_⟩
      · rw [sumActive_cons_inactive p ps hp, sumActive_cons_inactive p _ hp]
        exact ihSum
      · rw [countActive_cons_inactive p ps hp, countActive_cons_inactive p _ hp]
        exact ihCount
      · intro r hr hra
        rcases List.mem_cons.mp hr with hr | hr
        · subst hr
          exact absurd hra hp
        · exact ihRange r hr hra
      · intro j r hjr hrc
        cases j with
        | zero =>
          simp only [List.getElem?_cons_zero, Option.some.injEq] at hjr ⊢
          exact ⟨p, rfl, by rw [hjr]; exact hrc⟩
        | succ j =>
          simp only [List.getElem?_cons_succ] at hjr ⊢
          exact ihClosed j r hjr hrc

/-- With no active positions, at least one slot, and a capital limit and
per-position cap of at least the $500 ticket, the recommended size never
exceeds the capital limit. -/
theorem calculateOptimalPositionSize_le (price sigma limit maxUsd : ℝ)
    (maxPos : ℕ) (hpos : 1 ≤ maxPos) (hlimit : 500 ≤ limit) (hmax : 500 ≤ maxUsd) :
    calculateOptimalPositionSize price sigma limit maxUsd 0 maxPos ≤ limit := by
  have h0 : (0 : ℝ) < limit := by linarith
  have hp1 : (1 : ℝ) ≤ (maxPos : ℝ) := by exact_mod_cast hpos
  have hb : min maxUsd (limit / (maxPos : ℝ)) ≤ limit :=
    (min_le_right _ _).trans (div_le_self h0.le hp1)
  have hbpos : 0 ≤ min maxUsd (limit / (maxPos : ℝ)) :=
    le_min (by linarith) (by positivity)
  have hminSize : min (300 : ℝ) (limit * 0.03) ≤ limit :=
    (min_le_left _ _).trans (by linarith)
  simp only [calculateOptimalPositionSize]
  set b := min maxUsd (limit / (maxPos : ℝ)) with hbdef
  split_ifs <;>
    · apply max_le hminSize
      nlinarith

/-- When `shouldAddNewPosition` grants, the book is below capacity, no active
position's range contains the current tick, the recommended size is the one
`calculateOptimalPositionSize` computes, and at least half of it is available. -/
theorem shouldAddNewPosition_true_spec (currentTick : ℤ) (currentPrice : ℝ)
    (twap1h : Option ℝ) (sigma : ℝ) (activePositions : List Position)
    (maxPositions : ℕ) (totalUsdLimit maxUsdPerPosition : ℝ)
    (h : (shouldAddNewPosition currentTick currentPrice twap1h sigma activePositions
      maxPositions totalUsdLimit maxUsdPerPosition).shouldAdd = true) :
    activePositions.length < maxPositions ∧
    (∀ pos ∈ activePositions,
      ¬(pos.lower ≤ currentTick ∧ currentTick ≤ pos.upper)) ∧
    (shouldAddNewPosition currentTick currentPrice twap1h sigma activePositions
        maxPositions totalUsdLimit maxUsdPerPosition).recommendedSize =
      some (calculateOptimalPositionSize currentPrice sigma totalUsdLimit
        maxUsdPerPosition activePositions.length maxPositions) := by
  simp only [shouldAddNewPosition] at h ⊢
  by_cases h1 : activePositions.length ≥ maxPositions
  · rw [if_pos h1] at h
    exact absurd h (by simp)
  rw [if_neg h1] at h ⊢
  by_cases h2 : (analyzeMarketTrend currentPrice twap1h none sigma).recommendation =
      Recommendation.avoid
  · rw [if_pos h2] at h
    exact absurd h (by simp)
  rw [if_neg h2] at h ⊢
  by_cases h3 : (analyzeMarketTrend currentPrice twap1h none sigma).volatility =
      Volatility.high ∧ sigma > 0.05
  · rw [if_pos h3] at h
    exact absurd h (by simp)
  rw [if_neg h3] at h ⊢
  by_cases h4 : (activePositions.any fun pos =>
      decide (pos.lower ≤ currentTick) && decide (currentTick ≤ pos.upper)) = true
  · rw [if_pos h4] at h
    exact absurd h (by simp)
  rw [if_neg h4] at h ⊢
  by_cases h5 : totalUsdLimit - (activePositions.map (·.amountUsd)).sum <
      calculateOptimalPositionSize currentPrice sigma totalUsdLimit maxUsdPerPosition
        activePositions.length maxPositions * 0.5
  · rw [if_pos h5] at h
    exact absurd h (by simp)
  rw [if_neg h5]
  refine ⟨not_le.mp h1, ?_, rfl⟩
  intro pos hpos hcontr
  exact h4 (by
    simp only [List.any_eq_true]
    exact ⟨pos, hpos, by
      simp only [Bool.and_eq_true, decide_eq_true_eq]
      exact hcontr⟩)

/-- Append rule for `sumActive` with one active position. -/
theorem sumActive_append_single_active (l : List Position) (p : Position)
    (hp : p.status = Status.active) :
    sumActive (l ++ [p]) = sumActive l + p.amountUsd := by
  simp [sumActive, List.filter_append, List.filter_cons, hp]

/-- Append rule for `countActive` with one active position. -/
theorem countActive_append_single_active (l : List Position) (p : Position)
    (hp : p.status = Status.active) :
    countActive (l ++ [p]) = countActive l + 1 := by
  simp [countActive, List.filter_append, List.filter_cons, hp]

/-- The new-position gate preserves both capital gates: it only ever appends
when every active position was already closed away (an in-range survivor would
trip the overlap check), and then the single new position fits the limit. -/
theorem checkForNewPosition_spec (cp : CycleParams) (s : SimState)
    (hin : ∀ q ∈ s.positions, q.status = Status.active →
      q.lower ≤ cp.tick ∧ cp.tick ≤ q.upper)
    (hsum : sumActive s.positions ≤ s.totalUsdLimit)
    (hcount : countActive s.positions ≤ s.maxPositions) :
    sumActive (checkForNewPosition cp s).positions ≤ s.totalUsdLimit ∧
    countActive (checkForNewPosition cp s).positions ≤ s.maxPositions := by
  simp only [checkForNewPosition]
  split_ifs with h500 hadd
  · exact ⟨hsum, hcount⟩
  · obtain ⟨hsa, -⟩ := hadd
    have hspec := shouldAddNewPosition_true_spec cp.tick cp.price cp.twap1h
      (cp.sigma.getD 0) (getActivePositions s) s.maxPositions s.totalUsdLimit
      s.maxUsdPerPosition hsa
    have hempty : getActivePositions s = [] := by
      rcases hgo : getActivePositions s with _ | ⟨pos, rest⟩
      · rfl
      · exfalso
        have hmem : pos ∈ getActivePositions s := by
          rw [hgo]
          exact List.mem_cons_self _ _
        have hmem' := List.mem_filter.mp hmem
        have hposact : pos.status = Status.active := by simpa using hmem'.2
        exact hspec.2.1 pos hmem (hin pos hmem'.1 hposact)
    have hfilter : (s.positions.filter fun p => p.status = Status.active) = [] := hempty
    have hsum0 : sumActive s.positions = 0 := by simp [sumActive, hfilter]
    have hcount0 : countActive s.positions = 0 := by simp [countActive, hfilter]
    have hgti : getTotalInvested s = 0 := by
      simpa [getTotalInvested, sumActive] using hsum0
    have h500' := not_lt.mp h500
    have hlim : (500 : ℝ) ≤ s.totalUsdLimit := by
      have h := (le_min_iff.mp h500').2
      rw [hgti, sub_zero] at h
      exact h
    have hmaxUsd : (500 : ℝ) ≤ s.maxUsdPerPosition := (le_min_iff.mp h500').1
    have hpos1 : 1 ≤ s.maxPositions := by
      have h := hspec.1
      rw [hempty] at h
      simpa using h
    rw [hspec.2.2]
    have hfinal : (if calculateOptimalPositionSize cp.price (cp.sigma.getD 0)
          s.totalUsdLimit s.maxUsdPerPosition (getActivePositions s).length
          s.maxPositions = 0 then
        min s.maxUsdPerPosition (s.totalUsdLimit - getTotalInvested s)
      else calculateOptimalPositionSize cp.price (cp.sigma.getD 0) s.totalUsdLimit
        s.maxUsdPerPosition (getActivePositions s).length s.maxPositions) ≤
        s.totalUsdLimit := by
      split_ifs
      · rw [hgti, sub_zero]
        exact min_le_right _ _
      · rw [hempty]
        simpa using calculateOptimalPositionSize_le cp.price (cp.sigma.getD 0)
          s.totalUsdLimit s.maxUsdPerPosition s.maxPositions hpos1 hlim hmaxUsd
    constructor
    · rw [sumActive_append_single_active _ _ rfl, hsum0, zero_add]
      exact hfinal
    · rw [countActive_append_single_active _ _ rfl, hcount0]
      exact hpos1
  · exact ⟨hsum, hcount⟩

/-- The new-position gate never changes the capital policy fields. -/
theorem checkForNewPosition_policy (cp : CycleParams) (s : SimState) :
    (checkForNewPosition cp s).totalUsdLimit = s.totalUsdLimit ∧
    (checkForNewPosition cp s).maxPositions = s.maxPositions := by
  simp only [checkForNewPosition]
  split_ifs <;> simp

/-- The new-position gate never disturbs an existing ledger slot. -/
theorem checkForNewPosition_getElem (cp : CycleParams) (s : SimState) (j : ℕ)
    (q : Position) (h : s.positions[j]? = some q) :
    (checkForNewPosition cp s).positions[j]? = some q := by
  have hj : j < s.positions.length := by
    by_contra hge
    rw [List.getElem?_eq_none (le_of_not_lt hge)] at h
    cases h
  simp only [checkForNewPosition]
  split_ifs
  · exact h
  · rw [List.getElem?_append_left hj]
    exact h
  · exact h

/-- The metrics pass neither moves positions nor changes the capital policy. -/
theorem calculatePortfolioMetrics_frame (now : ℝ) (s : SimState) :
    (calculatePortfolioMetrics now s).positions = s.positions ∧
    (calculatePortfolioMetrics now s).totalUsdLimit = s.totalUsdLimit ∧
    (calculatePortfolioMetrics now s).maxPositions = s.maxPositions := by
  simp [calculatePortfolioMetrics]

/-! ### C1 — the capital gates are invariant under an evaluation cycle -/

/-- C1: an evaluation cycle preserves both capital gates.  If, going in, every
committed amount is nonnegative, the active capital total is within
`totalUsdLimit` and the active count within `maxPositions`, then after
`processPositions` the active capital total is still within the (unchanged)
`totalUsdLimit` and the active count within the (unchanged) `maxPositions`:
the per-position phase only closes or holds (the zero-buffer arguments make
the rebalance rules unreachable), and the add gate only fires on an empty
active book with a position that fits the limit. -/
theorem processPositions_capital_gates (cp : CycleParams) (rand : ℕ → ℝ)
    (s : SimState)
    (hAmt : ∀ p ∈ s.positions, 0 ≤ p.amountUsd)
    (hsum : sumActive s.positions ≤ s.totalUsdLimit)
    (hcount : countActive s.positions ≤ s.maxPositions) :
    sumActive (processPositions cp rand s).positions ≤
      (processPositions cp rand s).totalUsdLimit ∧
    countActive (processPositions cp rand s).positions ≤
      (processPositions cp rand s).maxPositions := by
  obtain ⟨phSum, phCount, phRange, -⟩ :=
    processActiveList_spec cp rand s.gasCostPerTransaction 0 s.positions hAmt
  simp only [processPositions]
  set s1 : SimState :=
    { s with
        positions := (processActiveList cp rand s.gasCostPerTransaction 0 s.positions).1
        totalFeesEarned := s.totalFeesEarned +
          (processActiveList cp rand s.gasCostPerTransaction 0 s.positions).2.1
        totalGasSpent := s.totalGasSpent +
          (processActiveList cp rand s.gasCostPerTransaction 0 s.positions).2.2 } with hs1
  have hgate := checkForNewPosition_spec cp s1
    (by
      intro q hq hqa
      exact phRange q hq hqa)
    (phSum.trans hsum)
    (phCount.trans hcount)
  have hframe := calculatePortfolioMetrics_frame cp.now (checkForNewPosition cp s1)
  have hpolicy := checkForNewPosition_policy cp s1
  rw [hframe.1, hframe.2.1, hframe.2.2, hpolicy.1, hpolicy.2]
  exact hgate

/-- C1 (witness): the sample state — one active $1000 position against a $1000
limit and five slots — satisfies the gates after the sample cycle. -/
theorem processPositions_capital_gates_witness :
    ((∀ p ∈ sampleState.positions, 0 ≤ p.amountUsd) ∧
      sumActive sampleState.positions ≤ sampleState.totalUsdLimit ∧
      countActive sampleState.positions ≤ sampleState.maxPositions) ∧
    sumActive (processPositions sampleCycle (fun _ => 0) sampleState).positions ≤
      (processPositions sampleCycle (fun _ => 0) sampleState).totalUsdLimit := by
  have h1 : ∀ p ∈ sampleState.positions, 0 ≤ p.amountUsd := by
    intro p hp
    simp only [sampleState, List.mem_singleton] at hp
    subst hp
    norm_num [samplePosition]
  have h2 : sumActive sampleState.positions ≤ sampleState.totalUsdLimit := by
    simp [sumActive, sampleState, samplePosition]
  have h3 : countActive sampleState.positions ≤ sampleState.maxPositions := by
    simp [countActive, sampleState, samplePosition]
  exact ⟨⟨h1, h2, h3⟩,
    (processPositions_capital_gates sampleCycle (fun _ => 0) sampleState h1 h2 h3).1⟩

/-! ### C9 — closed positions never reopen -/

/-- The per-position phase keeps every closed ledger slot closed (in fact it
passes closed positions through untouched). -/
theorem processActiveList_closed_stable (cp : CycleParams) (rand : ℕ → ℝ)
    (gasCost : ℝ) :
    ∀ (i : ℕ) (l : List Position) (j : ℕ) (p : Position),
      l[j]? = some p → p.status = Status.closed →
      ∃ q, (processActiveList cp rand gasCost i l).1[j]? = some q ∧
        q.status = Status.closed := by
  intro i l
  induction l generalizing i with
  | nil =>
    intro j p hp
    simp at hp
  | cons p ps ih =>
    intro j r hjr hrc
    by_cases hp : p.status = Status.active
    · have hstep : processActiveList cp rand gasCost i (p :: ps) =
          ((processExistingPosition cp (rand i) gasCost p).1 ::
              (processActiveList cp rand gasCost (i + 1) ps).1,
            (processExistingPosition cp (rand i) gasCost p).2.1 +
              (processActiveList cp rand gasCost (i + 1) ps).2.1,
            (processExistingPosition cp (rand i) gasCost p).2.2 +
              (processActiveList cp rand gasCost (i + 1) ps).2.2) := by
        simp only [processActiveList]
        rw [if_pos hp]
      rw [hstep]
      cases j with
      | zero =>
        simp only [List.getElem?_cons_zero, Option.some.injEq] at hjr
        subst hjr
        rw [hrc] at hp
        exact absurd hp (by decide)
      | succ j =>
        simp only [List.getElem?_cons_succ] at hjr ⊢
        exact ih (i + 1) j r hjr hrc
    · have hstep : processActiveList cp rand gasCost i (p :: ps) =
          (p :: (processActiveList cp rand gasCost (i + 1) ps).1,
            (processActiveList cp rand gasCost (i + 1) ps).2.1,
            (processActiveList cp rand gasCost (i + 1) ps).2.2) := by
        simp only [processActiveList]
        rw [if_neg hp]
      rw [hstep]
      cases j with
      | zero =>
        simp only [List.getElem?_cons_zero, Option.some.injEq] at hjr ⊢
        exact ⟨p, rfl, by rw [hjr]; exact hrc⟩
      | succ j =>
        simp only [List.getElem?_cons_succ] at hjr ⊢
        exact ih (i + 1) j r hjr hrc

/-- One cycle never flips a closed ledger slot back to active. -/
theorem processPositions_closed_stable (cp : CycleParams) (rand : ℕ → ℝ)
    (s : SimState) (j : ℕ) (p : Position)
    (h : s.positions[j]? = some p) (hc : p.status = Status.closed) :
    ∃ q, (processPositions cp rand s).positions[j]? = some q ∧
      q.status = Status.closed := by
  obtain ⟨q, hq, hqc⟩ := processActiveList_closed_stable cp rand
    s.gasCostPerTransaction 0 s.positions j p h hc
  simp only [processPositions]
  set s1 : SimState :=
    { s with
        positions := (processActiveList cp rand s.gasCostPerTransaction 0 s.positions).1
        totalFeesEarned := s.totalFeesEarned +
          (processActiveList cp rand s.gasCostPerTransaction 0 s.positions).2.1
        totalGasSpent := s.totalGasSpent +
          (processActiveList cp rand s.gasCostPerTransaction 0 s.positions).2.2 } with hs1
  have hcheck := checkForNewPosition_getElem cp s1 j q hq
  rw [(calculatePortfolioMetrics_frame cp.now (checkForNewPosition cp s1)).1]
  exact ⟨q, hcheck, hqc⟩

/-- C9: across every sequence of evaluation cycles, status transitions are
one-way — a position that is closed at some ledger slot stays closed at that
slot through every later `processPositions` cycle (close, rebalance, hold
processing, and new-position creation included), and is never set back to
active. -/
theorem runCycles_status_monotone (cycles : List (CycleParams × (ℕ → ℝ)))
    (s : SimState) (j : ℕ) (p : Position)
    (h : s.positions[j]? = some p) (hc : p.status = Status.closed) :
    ∃ q, (runCycles cycles s).positions[j]? = some q ∧
      q.status = Status.closed := by
  induction cycles generalizing s p with
  | nil => exact ⟨p, h, hc⟩
  | cons c rest ih =>
    obtain ⟨q, hq, hqc⟩ := processPositions_closed_stable c.1 c.2 s j p h hc
    exact ih (processPositions c.1 c.2 s) q hq hqc

/-- C9 (witness): the sample state whose only position is closed keeps it
closed across two sample cycles. -/
theorem runCycles_status_monotone_witness :
    (sampleClosedState.positions[0]? = some sampleClosedPosition ∧
      sampleClosedPosition.status = Status.closed) ∧
    ∃ q, (runCycles [(sampleCycle, fun _ => 0), (sampleCycle, fun _ => 0)]
        sampleClosedState).positions[0]? = some q ∧ q.status = Status.closed := by
  have h1 : sampleClosedState.positions[0]? = some sampleClosedPosition := by
    simp [sampleClosedState]
  have h2 : sampleClosedPosition.status = Status.closed := rfl
  exact ⟨⟨h1, h2⟩, runCycles_status_monotone _ sampleClosedState 0
    sampleClosedPosition h1 h2⟩

end UniswapPoller
